import Mathlib

/-!
Verification of the GitHerd branch synchronization core.

This file gives a shallow embedding of the sync decision engine of the
GitHerd repository (files githerd_pkg/git_utils.py and
githerd_pkg/repo_tab/sync.py, with the polling mixin of
githerd_pkg/repo_tab/polling.py) and proves properties of it.

The interaction with the external git subprocess is modelled by an
oracle (GitOracle) that records, for each git invocation the code makes
during one cycle, the (returncode, stdout, stderr) triple that run_git
would return for it.  Python exceptions are modelled by explicit
exceptional results (Except / an ExitStatus value threaded out of the
cycle), Python dictionaries by association lists, and the Tk label texts
that carry the session state by the literal strings the code writes.
-/

namespace GitHerd

/-- A (returncode, stdout, stderr) triple as returned by run_git. -/
abbrev GitRes := Nat × String × String

/-! ### Basic string helpers (kernel-reducible replacements for the
Python string operations used by the code) -/

/-- Auxiliary: split a list of characters at newline characters,
mirroring Python str.splitlines (the final piece is dropped when empty,
which happens exactly for a trailing newline or the empty string). -/
def splitLinesAux : List Char → List Char → List String
  | [], [] => []
  | [], acc => [String.mk acc.reverse]
  | c :: cs, acc =>
    if c = '\n' then String.mk acc.reverse :: splitLinesAux cs []
    else splitLinesAux cs (c :: acc)

/-- Python str.splitlines for newline-separated output. -/
def splitLines (s : String) : List String := splitLinesAux s.data []

/-- Drop pat from the front of l if it is a prefix of l. -/
def stripFront : List Char → List Char → Option (List Char)
  | [], l => some l
  | _ :: _, [] => none
  | p :: ps, c :: cs => if p = c then stripFront ps cs else none

/-- Fuelled replace-all over character lists (Python str.replace). -/
def replaceAllAux : Nat → List Char → List Char → List Char → List Char
  | 0, _, _, l => l
  | _ + 1, _, _, [] => []
  | n + 1, pat, rep, c :: cs =>
    match stripFront pat (c :: cs) with
    | some rest => rep ++ replaceAllAux n pat rep rest
    | none => c :: replaceAllAux n pat rep cs

/-- Python str.replace (replace every occurrence of pat by rep). -/
def strReplace (s pat rep : String) : String :=
  String.mk (replaceAllAux (s.data.length + 1) pat.data rep.data s.data)

/-- First n characters of a string (Python slicing s[:n]). -/
def strTake (n : Nat) (s : String) : String := String.mk (s.data.take n)

/-- Value of a decimal digit character. -/
def digitVal (c : Char) : Option Nat :=
  if '0' ≤ c ∧ c ≤ '9' then some (c.toNat - 48) else none

/-- Auxiliary decimal accumulator for parseNat. -/
def parseNatAux : List Char → Nat → Option Nat
  | [], acc => some acc
  | c :: cs, acc =>
    match digitVal c with
    | some d => parseNatAux cs (acc * 10 + d)
    | none => none

/-- Python int(s) on the (already stripped) output of rev-list:
succeeds exactly on a non-empty string of decimal digits. -/
def parseNat (s : String) : Option Nat :=
  match s.data with
  | [] => none
  | _ :: _ => parseNatAux s.data 0

/-- Decimal rendering of a natural number (used for the f-strings of the
status labels). -/
def natToStrAux : Nat → Nat → List Char
  | 0, _ => []
  | f + 1, n =>
    if n < 10 then [Char.ofNat (48 + n)]
    else natToStrAux f (n / 10) ++ [Char.ofNat (48 + n % 10)]

/-- Decimal rendering of a natural number. -/
def natToStr (n : Nat) : String := String.mk (natToStrAux (n + 1) n)

/-- Join a list of strings with a separator (Python str.join). -/
def joinSep (sep : String) : List String → String
  | [] => ""
  | [x] => x
  | x :: y :: xs => x ++ sep ++ joinSep sep (y :: xs)

/-! ### git_utils.py -/

/-- Outcome of one subprocess.run invocation, as seen by run_git:
either the process finished with a returncode and captured output, or
one of the exceptional conditions run_git catches occurred. -/
inductive ProcResult where
  | finished (code : Nat) (out err : String)
  | timedOut
  | notFound
  | excn (msg : String)
deriving DecidableEq

/-- The timeout, in seconds, that run_git passes to every
subprocess.run invocation (git_utils.py line 22). -/
def gitDefaultTimeout : Nat := 30

/-- run_git (git_utils.py lines 13-30): returns the triple for a
finished process and converts every caught exception into a synthetic
result with exit code 1; cmd0 is the first element of the command list,
used in the command-not-found diagnostic. -/
def run_git (cmd0 : String) (r : ProcResult) : GitRes :=
  match r with
  | .finished code out err => (code, out, err)
  | .timedOut => (1, "", "Timeout")
  | .notFound => (1, "", "Command not found: " ++ cmd0)
  | .excn msg => (1, "", msg)

/-- commits_ahead (git_utils.py lines 33-38): non-zero exit raises
RuntimeError(err), modelled as Except.error; otherwise int(out). -/
def commits_ahead (r : GitRes) : Except String Nat :=
  if r.1 ≠ 0 then .error r.2.2
  else
    match parseNat r.2.1 with
    | some n => .ok n
    | none => .error ("invalid int literal: " ++ r.2.1)

/-- commits_behind (git_utils.py lines 41-46): non-zero exit is
tolerated and yields 0; otherwise int(out). -/
def commits_behind (r : GitRes) : Except String Nat :=
  if r.1 ≠ 0 then .ok 0
  else
    match parseNat r.2.1 with
    | some n => .ok n
    | none => .error ("invalid int literal: " ++ r.2.1)

/-- get_tracked_branches (git_utils.py lines 49-58): non-zero exit
raises RuntimeError(err); otherwise out.splitlines() if out else []. -/
def get_tracked_branches (r : GitRes) : Except String (List String) :=
  if r.1 ≠ 0 then .error r.2.2
  else if r.2.1 = "" then .ok []
  else .ok (splitLines r.2.1)

/-- get_changed_files (git_utils.py lines 61-66): non-zero exit yields
the empty set; otherwise the set of lines of out. -/
def get_changed_files (r : GitRes) : List String :=
  if r.1 ≠ 0 then []
  else if r.2.1 = "" then []
  else splitLines r.2.1

/-- Two changed-file sets share a path (Python set intersection being
non-empty). -/
def filesOverlap (a b : List String) : Bool :=
  a.any (fun x => b.contains x)

/-- The double loop of are_files_disjoint (git_utils.py lines 76-80):
true iff every pair of file sets has empty intersection. -/
def pairwiseDisjoint : List (List String) → Bool
  | [] => true
  | fs :: rest => rest.all (fun g => !(filesOverlap fs g)) && pairwiseDisjoint rest

/-- are_files_disjoint (git_utils.py lines 69-80), with the diff oracle
giving, per short branch name, the triple of the
diff --name-only main...remote/branch invocation. -/
def are_files_disjoint (diff : String → GitRes) (branches : List String) : Bool :=
  pairwiseDisjoint (branches.map (fun b => get_changed_files (diff b)))

/-- local_main_ahead (git_utils.py lines 83-88): commits_ahead of local
main over remote main, with every failure caught and turned into 0. -/
def local_main_ahead (r : GitRes) : Nat :=
  match commits_ahead r with
  | .ok n => n
  | .error _ => 0

/-! ### Session state, configuration and the git oracle -/

/-- Per-repository configuration read by the session (remote name and
main-branch name; the branch-name pattern only influences which refs
the for-each-ref invocation lists, which the oracle records directly). -/
structure RepoCfg where
  remote : String
  mainB : String
deriving DecidableEq

/-- The slice of the persisted global settings the sync code touches:
whether the repository path is a key of branch_update_enabled, that
per-repository branch map (an association list, modelling the Python
dict), and sync_new_branches_by_default. -/
structure Settings where
  repoInMap : Bool
  branchEnabled : List (String × Bool)
  defaultEnabled : Bool
deriving DecidableEq

/-- The per-session mutable state the sync and merge code reads and
writes: the state and info label texts, pending_branches,
last_commit_count (association list modelling the Python dict), the
polling flag, the cached git_healthy flag, whether the merge button is
shown, and the syncing indicator. -/
structure Session where
  stateLabel : String
  infoLabel : String
  pendingBranches : List String
  lastCommitCount : List (String × Nat)
  polling : Bool
  healthy : Bool
  mergeButtonShown : Bool
  syncing : Bool
deriving DecidableEq

/-- Results of the git invocations one cycle can make, keyed by the
data-dependent argument of each call: fetch, the rev-list for
local_main_ahead, the for-each-ref branch listing, the per-branch
rev-list counts (keyed by the listed ref), the per-branch diff (keyed
by short branch name), push of main, push of a main:branch refspec
(keyed by the refspec), the fast-forward pull (keyed by the pulled
branch) and merge (keyed by the merged branch). -/
structure GitOracle where
  fetchRes : GitRes
  localMainRes : GitRes
  trackedRes : GitRes
  revListAhead : String → GitRes
  revListBehind : String → GitRes
  diffFiles : String → GitRes
  pushMainRes : GitRes
  pushRefspec : String → GitRes
  pullRes : String → GitRes
  mergeRes : String → GitRes

/-- Python dict.get(k, d) on an association list (value of the first
entry with the given key, or the default). -/
def lookupD {α : Type} : List (String × α) → String → α → α
  | [], _, d => d
  | p :: l, k, d => if p.1 == k then p.2 else lookupD l k d

/-- Python dict assignment d[k] = v on an association list. -/
def setKey (l : List (String × Nat)) (k : String) (v : Nat) : List (String × Nat) :=
  if l.any (fun p => p.1 == k) then
    l.map (fun p => if p.1 == k then (k, v) else p)
  else l ++ [(k, v)]

/-- b.replace(remote + "/", ""): the short name of a listed ref. -/
def shortOf (remote b : String) : String := strReplace b (remote ++ "/") ""

/-- The field updates _do_sync performs before anything else
(sync.py lines 40-42): label "Sync…", hide the merge button, clear
pending_branches. -/
def scanStart (s : Session) : Session :=
  { s with stateLabel := "Sync…", mergeButtonShown := false, pendingBranches := [] }

/-- The enabled-branch filter (sync.py lines 66-76): keep the listed
refs whose short name is enabled in the per-repository map, with
sync_new_branches_by_default as fallback. -/
def enabledBranches (cfg : Settings) (remote : String) (allBranches : List String) : List String :=
  let branchStates := if cfg.repoInMap then cfg.branchEnabled else []
  allBranches.filter (fun b => lookupD branchStates (shortOf remote b) cfg.defaultEnabled)

/-- The stale-entry cleanup (sync.py lines 78-89): when the repository
is a key of branch_update_enabled, drop every saved branch whose short
name no longer occurs among the listed refs. -/
def pruneSettings (cfg : Settings) (existing : List String) : Settings :=
  if cfg.repoInMap then
    { cfg with branchEnabled := cfg.branchEnabled.filter (fun p => existing.contains p.1) }
  else cfg

/-- How a Python call exits in the model: normally, or by an exception
propagating out of it. -/
inductive ExitStatus where
  | normal
  | raised (msg : String)
deriving DecidableEq

/-- Outcome of the classification loop (sync.py lines 96-119): either a
propagating exception together with the last_commit_count at that
point, or the ahead list, diverged list, new-commit flag and updated
last_commit_count. -/
inductive ClassifyOut where
  | raised (msg : String) (lcc : List (String × Nat))
  | done (aheads : List (String × Nat)) (divs : List (String × Nat × Nat))
      (newDetected : Bool) (lcc : List (String × Nat))
deriving DecidableEq

/-- The classification loop (sync.py lines 100-119): per enabled ref,
commits_ahead (raising on failure) and commits_behind; refs with
ahead > 0 are recorded as diverged (behind > 0) or ahead, the
new-commit flag is set when ahead exceeds the previously recorded
count, and last_commit_count[short] is updated unconditionally. -/
def classify (env : GitOracle) (remote : String) (lcc : List (String × Nat)) :
    List String → ClassifyOut
  | [] => .done [] [] false lcc
  | b :: rest =>
    match commits_ahead (env.revListAhead b) with
    | .error e => .raised e lcc
    | .ok ahead =>
      match commits_behind (env.revListBehind b) with
      | .error e => .raised e lcc
      | .ok behind =>
        if 0 < ahead then
          let short := shortOf remote b
          let prev := lookupD lcc short 0
          match classify env remote (setKey lcc short ahead) rest with
          | .raised m l => .raised m l
          | .done aheads divs nd l =>
            if 0 < behind then
              .done aheads ((short, ahead, behind) :: divs) (decide (prev < ahead) || nd) l
            else
              .done ((short, ahead) :: aheads) divs (decide (prev < ahead) || nd) l
        else
          classify env remote lcc rest

/-- The behind-branch collection loop (sync.py lines 135-142):
commits_behind per enabled ref (tolerating non-zero exits), keeping the
short names of refs that are behind. -/
def collectBehind (env : GitOracle) (remote : String) :
    List String → Except String (List (String × Nat))
  | [] => .ok []
  | b :: rest => do
    let behind ← commits_behind (env.revListBehind b)
    let r ← collectBehind env remote rest
    if 0 < behind then pure ((shortOf remote b, behind) :: r) else pure r

/-- The behind-branch push loop (sync.py lines 146-158): push
main:branch for each behind branch, stopping at the first failure with
label "ERROR" and the scheduler stopped. -/
def pushBehindLoop (env : GitOracle) (rc : RepoCfg) (s : Session) :
    List (String × Nat) → Bool × Session
  | [] => (true, s)
  | (name, _) :: rest =>
    let r := env.pushRefspec (rc.mainB ++ ":" ++ name)
    if r.1 ≠ 0 then (false, { s with stateLabel := "ERROR", polling := false })
    else pushBehindLoop env rc s rest

/-- How push_main_and_branches exits: all pushes done, a push failed
(state already updated), or an exception propagated out of it. -/
inductive PushOut where
  | ok
  | failed
  | raised (msg : String)
deriving DecidableEq

/-- The fan-out loop of push_main_and_branches (sync.py lines 242-258):
per listed ref, skip it when its short name is disabled, otherwise push
main:short; the first failure sets "STOP — Push failed", stops the
scheduler and aborts the loop. -/
def pushBranchLoop (env : GitOracle) (rc : RepoCfg) (cfg : Settings) (s : Session) :
    List String → PushOut × Session
  | [] => (.ok, s)
  | b :: rest =>
    let target := shortOf rc.remote b
    let branchStates := if cfg.repoInMap then cfg.branchEnabled else []
    if lookupD branchStates target cfg.defaultEnabled then
      let r := env.pushRefspec (rc.mainB ++ ":" ++ target)
      if r.1 ≠ 0 then
        (.failed, { s with stateLabel := "STOP — Push failed",
                           infoLabel := "Push to " ++ target ++ " failed",
                           polling := false })
      else pushBranchLoop env rc cfg s rest
    else pushBranchLoop env rc cfg s rest

/-- push_main_and_branches (sync.py lines 222-260): push main (failure
gives "ERROR" and stops the scheduler), re-list the tracked refs
(raising on failure), then run the fan-out loop with the freshly read
enabled map. -/
def push_main_and_branches (env : GitOracle) (rc : RepoCfg) (cfg : Settings)
    (s : Session) : PushOut × Session :=
  if env.pushMainRes.1 ≠ 0 then
    (.failed, { s with stateLabel := "ERROR", polling := false })
  else
    match get_tracked_branches env.trackedRes with
    | .error e => (.raised e, s)
    | .ok allBranches => pushBranchLoop env rc cfg s allBranches

/-- Result of one _do_sync run: its exit status, the session state at
exit, and the persisted settings at exit. -/
structure CycleOut where
  exitS : ExitStatus
  sess : Session
  cfg : Settings
deriving DecidableEq

/-- _do_sync (sync.py lines 38-220). -/
def do_sync (env : GitOracle) (rc : RepoCfg) (cfg : Settings) (s0 : Session) : CycleOut :=
  let s := scanStart s0
  if env.fetchRes.1 ≠ 0 then
    ⟨.normal, { s with stateLabel := "ERROR", polling := false }, cfg⟩
  else
    let localAhead := local_main_ahead env.localMainRes
    if 0 < localAhead then
      match push_main_and_branches env rc cfg s with
      | (.ok, s1) =>
        ⟨.normal,
          { s1 with stateLabel := "Sync OK",
                    infoLabel := "Pushed " ++ natToStr localAhead ++ " local commits" },
          cfg⟩
      | (.failed, s1) => ⟨.normal, s1, cfg⟩
      | (.raised m, s1) => ⟨.raised m, s1, cfg⟩
    else
      match get_tracked_branches env.trackedRes with
      | .error e => ⟨.raised e, s, cfg⟩
      | .ok allBranches =>
        let branches := enabledBranches cfg rc.remote allBranches
        let cfg' := pruneSettings cfg (allBranches.map (shortOf rc.remote))
        match classify env rc.remote s.lastCommitCount branches with
        | .raised m lcc => ⟨.raised m, { s with lastCommitCount := lcc }, cfg'⟩
        | .done aheads divs _nd lcc =>
          let s := { s with lastCommitCount := lcc }
          if aheads.length + divs.length = 0 then
            match collectBehind env rc.remote branches with
            | .error m => ⟨.raised m, s, cfg'⟩
            | .ok behinds =>
              if behinds.length ≠ 0 then
                match pushBehindLoop env rc s behinds with
                | (true, s2) =>
                  ⟨.normal,
                    { s2 with stateLabel := "Sync OK",
                              infoLabel := natToStr behinds.length ++ " branches synchronized" },
                    cfg'⟩
                | (false, s2) => ⟨.normal, s2, cfg'⟩
              else
                ⟨.normal,
                  { s with stateLabel := "Idle",
                           infoLabel := "All branches are synchronized",
                           lastCommitCount := [] },
                  cfg'⟩
          else if 0 < divs.length ∨ 1 < aheads.length then
            let allNames := divs.map (fun d => d.1) ++ aheads.map (fun a => a.1)
            let s := { s with pendingBranches := allNames }
            let disjoint := are_files_disjoint env.diffFiles allNames
            let msg :=
              if 0 < divs.length then
                "Diverged branches: " ++ joinSep ", "
                  (divs.map (fun d => d.1 ++ " (+" ++ natToStr d.2.1 ++ "/-" ++ natToStr d.2.2 ++ ")"))
              else "Multiple branches: " ++ joinSep ", " allNames
            if disjoint then
              ⟨.normal,
                { s with stateLabel := "STOP — Merge possible",
                         infoLabel := "Disjoint files. " ++ msg,
                         mergeButtonShown := true, polling := false },
                cfg'⟩
            else
              ⟨.normal,
                { s with stateLabel := "STOP — Human action required",
                         infoLabel := "Potential file conflict. " ++ msg,
                         polling := false },
                cfg'⟩
          else
            match aheads with
            | [] => ⟨.raised "list index out of range", s, cfg'⟩
            | (leader, _) :: _ =>
              let pr := env.pullRes leader
              if pr.1 ≠ 0 then
                ⟨.normal,
                  { s with stateLabel := "ERROR",
                           infoLabel := "Pull failed: " ++ strTake 100 pr.2.2,
                           polling := false },
                  cfg'⟩
              else
                match push_main_and_branches env rc cfg' s with
                | (.failed, s1) => ⟨.normal, s1, cfg'⟩
                | (.raised m, s1) => ⟨.raised m, s1, cfg'⟩
                | (.ok, s1) =>
                  let s2 := { s1 with lastCommitCount := setKey s1.lastCommitCount leader 0,
                                      stateLabel := "Sync OK" }
                  match get_tracked_branches env.trackedRes with
                  | .error m => ⟨.raised m, s2, cfg'⟩
                  | .ok branches2 =>
                    ⟨.normal,
                      { s2 with
                          infoLabel := "Pull from " ++ leader ++ ", push to " ++
                            natToStr (branches2.length - 1) ++ " other branches" },
                      cfg'⟩

/-- A session together with its mutual-exclusion lock (threading.Lock;
true while some sync or merge holds it). -/
structure LockedSession where
  lockHeld : Bool
  sess : Session
deriving DecidableEq

/-- sync (sync.py lines 21-36): non-blocking lock acquisition (a held
lock makes the call return at once), the syncing indicator set for the
duration of _do_sync, and the finally block that clears the indicator
and releases the lock on both the normal and the exceptional exit. -/
def sync (env : GitOracle) (rc : RepoCfg) (cfg : Settings) (ls : LockedSession) :
    ExitStatus × LockedSession × Settings :=
  if ls.lockHeld then (.normal, ls, cfg)
  else
    let out := do_sync env rc cfg { ls.sess with syncing := true }
    (out.exitS, ⟨false, { out.sess with syncing := false }⟩, out.cfg)

/-- The merge loop of _do_merge_impl (sync.py lines 287-300): merge each
pending branch in turn; the first failure sets "ERROR — Merge failed",
issues merge --abort, stops the scheduler and returns. -/
def mergeLoop (env : GitOracle) (s : Session) : List String → Bool × Session
  | [] => (true, s)
  | branch :: rest =>
    if (env.mergeRes branch).1 ≠ 0 then
      (false, { s with stateLabel := "ERROR — Merge failed",
                       infoLabel := "Merge of " ++ branch ++ " failed",
                       polling := false })
    else mergeLoop env s rest

/-- _do_merge_impl (sync.py lines 275-309). -/
def do_merge_impl (env : GitOracle) (rc : RepoCfg) (cfg : Settings) (s0 : Session) :
    ExitStatus × Session :=
  if s0.pendingBranches = [] then (.normal, s0)
  else
    let s := { s0 with stateLabel := "Merging…", mergeButtonShown := false }
    match mergeLoop env s s.pendingBranches with
    | (false, s1) => (.normal, s1)
    | (true, s1) =>
      match push_main_and_branches env rc cfg s1 with
      | (.failed, s2) => (.normal, s2)
      | (.raised m, s2) => (.raised m, s2)
      | (.ok, s2) =>
        (.normal,
          { s2 with pendingBranches := [], lastCommitCount := [],
                    stateLabel := "Merge OK",
                    infoLabel := "Merged " ++ natToStr s.pendingBranches.length ++ " branches" })

/-- _do_merge (sync.py lines 266-273): the same non-blocking lock
discipline as sync, around _do_merge_impl. -/
def do_merge (env : GitOracle) (rc : RepoCfg) (cfg : Settings) (ls : LockedSession) :
    ExitStatus × LockedSession :=
  if ls.lockHeld then (.normal, ls)
  else
    let out := do_merge_impl env rc cfg ls.sess
    (out.1, ⟨false, out.2⟩)

/-- manual_sync (sync.py lines 313-317): the trigger is accepted (a
worker thread running sync is spawned) exactly when the cached
git_healthy flag is true. -/
def manual_sync_accepted (s : Session) : Bool := s.healthy

/-! ### Shared concrete inputs for witnesses and counterexamples -/

/-- A successful git invocation with empty output. -/
def okRes : GitRes := (0, "", "")

/-- A successful rev-list count invocation reporting n commits. -/
def countRes (n : Nat) : GitRes := (0, natToStr n, "")

/-- The standard repository configuration of the examples. -/
def rcStd : RepoCfg := ⟨"origin", "main"⟩

/-- Settings with no persisted per-branch map and new branches enabled
by default. -/
def cfgNone : Settings := ⟨false, [], true⟩

/-- A healthy idle session with polling running. -/
def sessIdle : Session :=
  { stateLabel := "Idle", infoLabel := "", pendingBranches := [],
    lastCommitCount := [], polling := true, healthy := true,
    mergeButtonShown := false, syncing := false }

/-- A session whose cached git_healthy flag is false. -/
def sessUnhealthy : Session := { sessIdle with healthy := false }

/-- An oracle where every invocation succeeds, no branch is listed and
every count is 0. -/
def envQuiet : GitOracle :=
  { fetchRes := okRes
    localMainRes := countRes 0
    trackedRes := okRes
    revListAhead := fun _ => countRes 0
    revListBehind := fun _ => countRes 0
    diffFiles := fun _ => okRes
    pushMainRes := okRes
    pushRefspec := fun _ => okRes
    pullRes := fun _ => okRes
    mergeRes := fun _ => okRes }

/-- Oracle for a cycle whose fetch succeeds, whose local main is not
ahead, which lists one tracked branch, and whose ahead-count rev-list
exits non-zero. -/
def envAheadFail : GitOracle :=
  { envQuiet with
      trackedRes := (0, "origin/feature/x", "")
      revListAhead := fun _ => (128, "", "fatal: bad revision") }

/-- Oracle for a cycle that ends on the local-main-ahead push path
(local main two commits ahead, every push succeeding, no remote
branches). -/
def envLocalAhead : GitOracle := { envQuiet with localMainRes := countRes 2 }

/-- Settings whose persisted per-repository map holds one stale branch
entry. -/
def cfgStale : Settings := ⟨true, [("gone", true)], false⟩

/-- Oracle for scenario B: two tracked branches one commit ahead each,
none behind, touching disjoint files. -/
def envTwoAhead : GitOracle :=
  { envQuiet with
      trackedRes := (0, "origin/feature/a\norigin/feature/b", "")
      revListAhead := fun _ => countRes 1
      revListBehind := fun _ => countRes 0
      diffFiles := fun b => if b = "feature/a" then (0, "a.txt", "") else (0, "b.txt", "") }

/-- Oracle for scenario A: one tracked branch three commits ahead, not
behind; pull and pushes succeed. -/
def envOneAhead : GitOracle :=
  { envQuiet with
      trackedRes := (0, "origin/feature/x", "")
      revListAhead := fun _ => countRes 3
      revListBehind := fun _ => countRes 0 }

/-- A session stopped in the merge-possible state with one pending
branch. -/
def sessPendingX : Session :=
  { sessIdle with pendingBranches := ["x"],
                  stateLabel := "STOP — Merge possible",
                  mergeButtonShown := true }

/-- An oracle where every merge invocation fails and everything else
succeeds. -/
def envMergeFail : GitOracle :=
  { envQuiet with mergeRes := fun _ => (1, "", "CONFLICT (content)") }

/-! ### Theorems -/

/-- C8: run_git never raises: a finished process result is returned
as-is (non-zero exit codes included), and executable-not-found and
timeout-exceeded become a synthetic exit-code-1 result carrying a
diagnostic message; the timeout passed to every invocation is 30
seconds. -/
theorem run_git_never_raises :
    (∀ cmd0 c o e, run_git cmd0 (ProcResult.finished c o e) = (c, o, e)) ∧
    (∀ cmd0, run_git cmd0 ProcResult.timedOut = (1, "", "Timeout")) ∧
    (∀ cmd0, run_git cmd0 ProcResult.notFound = (1, "", "Command not found: " ++ cmd0)) ∧
    (∀ cmd0 m, run_git cmd0 (ProcResult.excn m) = (1, "", m)) ∧
    gitDefaultTimeout = 30 :=
  ⟨fun _ _ _ _ => rfl, fun _ => rfl, fun _ => rfl, fun _ _ => rfl, rfl⟩

/-- C9: a behind-count failure (non-zero rev-list exit) yields 0, a
changed-files failure yields the empty set, and a local-main-ahead
failure (commits_ahead raising) yields 0; all three return normally
instead of raising. -/
theorem tolerated_failures_default_safe :
    (∀ r : GitRes, r.1 ≠ 0 → commits_behind r = Except.ok 0) ∧
    (∀ r : GitRes, r.1 ≠ 0 → get_changed_files r = []) ∧
    (∀ (r : GitRes) (e : String), commits_ahead r = Except.error e → local_main_ahead r = 0) := by
  refine ⟨fun r h => ?_, fun r h => ?_, fun r e h => ?_⟩
  · simp [commits_behind, h]
  · simp [get_changed_files, h]
  · simp [local_main_ahead, h]

/-- Witness for C9 at concrete failing invocations. -/
theorem tolerated_failures_default_safe_witness :
    commits_behind (1, "", "fatal") = Except.ok 0 ∧
    get_changed_files (1, "", "fatal") = [] ∧
    local_main_ahead (1, "", "fatal") = 0 :=
  ⟨tolerated_failures_default_safe.1 (1, "", "fatal") (by decide),
   tolerated_failures_default_safe.2.1 (1, "", "fatal") (by decide),
   tolerated_failures_default_safe.2.2 (1, "", "fatal") "fatal" rfl⟩

/-! ### C10 -/

/-- C10: the sync entry point and the merge entry point release the
per-session lock on every exit path (the exceptional one included,
since the result is the same whatever exit status the body reports),
so a later sync or merge attempt can acquire it again; and a call that
finds the lock held is a pure no-op rather than a queued retry. -/
theorem sync_releases_lock (env : GitOracle) (rc : RepoCfg) (cfg : Settings) (s : Session) :
    (sync env rc cfg ⟨false, s⟩).2.1.lockHeld = false ∧
    (do_merge env rc cfg ⟨false, s⟩).2.lockHeld = false ∧
    sync env rc cfg ⟨true, s⟩ = (.normal, ⟨true, s⟩, cfg) ∧
    do_merge env rc cfg ⟨true, s⟩ = (.normal, ⟨true, s⟩) :=
  ⟨rfl, rfl, rfl, rfl⟩

/-! ### C1 -/

/-- C1 (code bug): when the ahead-count rev-list fails, the cycle does
not end in the Error state and the scheduler is not halted; instead the
RuntimeError escapes the sync entry point (the exit status of sync is
the propagating exception), the state label is left at the transient
scanning text and the polling flag is still set — so the exception does
cross out of the background worker uncaught, and the polling loop
thread that called sync is killed by it. -/
theorem ahead_count_failure_escapes_uncaught :
    (sync envAheadFail rcStd cfgNone ⟨false, sessIdle⟩).1 =
      ExitStatus.raised "fatal: bad revision" ∧
    (sync envAheadFail rcStd cfgNone ⟨false, sessIdle⟩).2.1.sess.stateLabel = "Sync…" ∧
    (sync envAheadFail rcStd cfgNone ⟨false, sessIdle⟩).2.1.sess.polling = true := by
  decide

/-! ### C2 -/

/-- C2 counterexample: a sync cycle on an unhealthy session does not
transition to Error and does not stop the scheduler — no health check
is re-run at the start of the cycle, and the decision engine runs all
the way to the Idle outcome. -/
theorem unhealthy_cycle_still_runs :
    sessUnhealthy.healthy = false ∧
    (do_sync envQuiet rcStd cfgNone sessUnhealthy).exitS = ExitStatus.normal ∧
    (do_sync envQuiet rcStd cfgNone sessUnhealthy).sess.stateLabel = "Idle" ∧
    (do_sync envQuiet rcStd cfgNone sessUnhealthy).sess.polling = true := by
  decide

/-- The push fan-out loop never reads the cached health flag: running
it with the flag replaced only replaces the flag of its result. -/
theorem pushBranchLoop_healthy (env : GitOracle) (rc : RepoCfg) (cfg : Settings)
    (st info : String) (pend : List String) (lcc : List (String × Nat))
    (poll mb sy : Bool) (hA hB : Bool) :
    ∀ bs : List String,
      pushBranchLoop env rc cfg ⟨st, info, pend, lcc, poll, hA, mb, sy⟩ bs =
        ((pushBranchLoop env rc cfg ⟨st, info, pend, lcc, poll, hB, mb, sy⟩ bs).1,
          { (pushBranchLoop env rc cfg ⟨st, info, pend, lcc, poll, hB, mb, sy⟩ bs).2 with
              healthy := hA })
  | [] => rfl
  | hd :: tl => by
    have ih := pushBranchLoop_healthy env rc cfg st info pend lcc poll mb sy hA hB tl
    simp only [pushBranchLoop]
    cases e1 : lookupD (if cfg.repoInMap then cfg.branchEnabled else [])
        (shortOf rc.remote hd) cfg.defaultEnabled
    · simp only [e1, Bool.false_eq_true, if_false]
      exact ih
    · cases e2 : (env.pushRefspec (rc.mainB ++ ":" ++ shortOf rc.remote hd)).1
      · simp only [e1, if_true, e2, ne_eq, not_true_eq_false, reduceIte, not_false_eq_true]
        exact ih
      · simp [e1, e2]

/-- push_main_and_branches never reads the cached health flag. -/
theorem push_main_and_branches_healthy (env : GitOracle) (rc : RepoCfg) (cfg : Settings)
    (st info : String) (pend : List String) (lcc : List (String × Nat))
    (poll mb sy : Bool) (hA hB : Bool) :
    push_main_and_branches env rc cfg ⟨st, info, pend, lcc, poll, hA, mb, sy⟩ =
      ((push_main_and_branches env rc cfg ⟨st, info, pend, lcc, poll, hB, mb, sy⟩).1,
        { (push_main_and_branches env rc cfg ⟨st, info, pend, lcc, poll, hB, mb, sy⟩).2 with
            healthy := hA }) := by
  simp only [push_main_and_branches]
  split
  · rfl
  · split
    · rfl
    · exact pushBranchLoop_healthy env rc cfg st info pend lcc poll mb sy hA hB _

/-- The behind-branch push loop never reads the cached health flag. -/
theorem pushBehindLoop_healthy (env : GitOracle) (rc : RepoCfg)
    (st info : String) (pend : List String) (lcc : List (String × Nat))
    (poll mb sy : Bool) (hA hB : Bool) :
    ∀ bs : List (String × Nat),
      pushBehindLoop env rc ⟨st, info, pend, lcc, poll, hA, mb, sy⟩ bs =
        ((pushBehindLoop env rc ⟨st, info, pend, lcc, poll, hB, mb, sy⟩ bs).1,
          { (pushBehindLoop env rc ⟨st, info, pend, lcc, poll, hB, mb, sy⟩ bs).2 with
              healthy := hA })
  | [] => rfl
  | hd :: tl => by
    simp only [pushBehindLoop]
    split
    · rfl
    · exact pushBehindLoop_healthy env rc st info pend lcc poll mb sy hA hB tl

/-- A sync cycle never reads the cached health flag: its outcome on a
session with the flag replaced is the same outcome with the flag
replaced in the resulting session. -/
theorem do_sync_ignores_health (env : GitOracle) (rc : RepoCfg) (cfg : Settings)
    (st info : String) (pend : List String) (lcc : List (String × Nat))
    (poll mb sy : Bool) (hA hB : Bool) :
    do_sync env rc cfg ⟨st, info, pend, lcc, poll, hA, mb, sy⟩ =
      ⟨(do_sync env rc cfg ⟨st, info, pend, lcc, poll, hB, mb, sy⟩).exitS,
        { (do_sync env rc cfg ⟨st, info, pend, lcc, poll, hB, mb, sy⟩).sess with healthy := hA },
        (do_sync env rc cfg ⟨st, info, pend, lcc, poll, hB, mb, sy⟩).cfg⟩ := by
  simp only [do_sync, scanStart]
  cases e1 : env.fetchRes.1 with
  | succ n => simp [e1]
  | zero =>
  simp only [e1, ne_eq, not_true_eq_false, not_false_eq_true, if_false, if_true, reduceIte]
  cases e2 : local_main_ahead env.localMainRes with
  | succ n =>
    simp only [e2, Nat.zero_lt_succ, if_true]
    rw [push_main_and_branches_healthy env rc cfg "Sync…" info [] lcc poll false sy hA hB]
    cases e3 : push_main_and_branches env rc cfg ⟨"Sync…", info, [], lcc, poll, hB, false, sy⟩ with
    | mk p1 p2 =>
      cases p1 <;> rfl
  | zero =>
  simp only [e2, Nat.lt_irrefl, if_false, reduceIte]
  cases e4 : get_tracked_branches env.trackedRes with
  | error e => rfl
  | ok allB =>
  simp only []
  cases e5 : classify env rc.remote lcc (enabledBranches cfg rc.remote allB) with
  | raised m l => rfl
  | done aheads divs nd l =>
  by_cases e6 : aheads.length + divs.length = 0
  · simp only [e6, if_true, reduceIte]
    cases e7 : collectBehind env rc.remote (enabledBranches cfg rc.remote allB) with
    | error m => rfl
    | ok behinds =>
    by_cases e8 : behinds.length ≠ 0
    · simp only [e8, if_true, reduceIte]
      rw [pushBehindLoop_healthy env rc "Sync…" info [] l poll false sy hA hB behinds]
      cases e9 : pushBehindLoop env rc ⟨"Sync…", info, [], l, poll, hB, false, sy⟩ behinds with
      | mk b1 b2 =>
        cases b1 <;> rfl
    · simp only [e8, if_false, reduceIte]
  · simp only [e6, if_false, reduceIte]
    by_cases e10 : 0 < divs.length ∨ 1 < aheads.length
    · simp only [e10, if_true, reduceIte]
      cases e11 : are_files_disjoint env.diffFiles
          (divs.map (fun d => d.1) ++ aheads.map (fun a => a.1)) <;>
        simp [e11]
    · simp only [e10, if_false, reduceIte]
      cases aheads with
      | nil => rfl
      | cons hdp tlp =>
      cases hdp with
      | mk leader cnt =>
      cases e12 : (env.pullRes leader).1 with
      | succ n => simp [e12]
      | zero =>
      simp only [e12, ne_eq, not_true_eq_false, not_false_eq_true, if_false, reduceIte]
      rw [push_main_and_branches_healthy env rc
        (pruneSettings cfg (allB.map (shortOf rc.remote))) "Sync…" info [] l poll false sy hA hB]
      cases e13 : push_main_and_branches env rc (pruneSettings cfg (allB.map (shortOf rc.remote)))
          ⟨"Sync…", info, [], l, poll, hB, false, sy⟩ with
      | mk p1 p2 =>
      cases p1 with
      | ok => rfl
      | failed => rfl
      | raised m => rfl

/-- C2 (amended): a sync cycle performs no health re-check and runs its
decision engine regardless of the cached git_healthy flag — the
outcome of a cycle is independent of the flag, which is only carried
through unchanged — while a manual sync trigger is accepted exactly
when the cached flag is true, so an unhealthy session does refuse the
manual trigger (but by the cached flag, not by a fresh check). -/
theorem health_gating_amended (env : GitOracle) (rc : RepoCfg) (cfg : Settings)
    (st info : String) (pend : List String) (lcc : List (String × Nat))
    (poll mb sy hA hB : Bool) :
    do_sync env rc cfg ⟨st, info, pend, lcc, poll, hA, mb, sy⟩ =
      ⟨(do_sync env rc cfg ⟨st, info, pend, lcc, poll, hB, mb, sy⟩).exitS,
        { (do_sync env rc cfg ⟨st, info, pend, lcc, poll, hB, mb, sy⟩).sess with healthy := hA },
        (do_sync env rc cfg ⟨st, info, pend, lcc, poll, hB, mb, sy⟩).cfg⟩ ∧
    manual_sync_accepted ⟨st, info, pend, lcc, poll, hA, mb, sy⟩ = hA :=
  ⟨do_sync_ignores_health env rc cfg st info pend lcc poll mb sy hA hB, rfl⟩

/-- The push fan-out loop either pushes everything (returning the
session untouched) or stops at a failed target with the push-failed
labels and the scheduler stopped. -/
theorem pushBranchLoop_spec (env : GitOracle) (rc : RepoCfg) (cfg : Settings) :
    ∀ (bs : List String) (s : Session),
      pushBranchLoop env rc cfg s bs = (.ok, s) ∨
      ∃ target, pushBranchLoop env rc cfg s bs =
        (.failed, { s with stateLabel := "STOP — Push failed",
                           infoLabel := "Push to " ++ target ++ " failed",
                           polling := false })
  | [], _ => Or.inl rfl
  | hd :: tl, s => by
    simp only [pushBranchLoop]
    by_cases e1 : lookupD (if cfg.repoInMap then cfg.branchEnabled else [])
        (shortOf rc.remote hd) cfg.defaultEnabled = true
    · rw [if_pos e1]
      by_cases e2 : (env.pushRefspec (rc.mainB ++ ":" ++ shortOf rc.remote hd)).1 ≠ 0
      · rw [if_pos e2]
        exact Or.inr ⟨shortOf rc.remote hd, rfl⟩
      · rw [if_neg e2]
        exact pushBranchLoop_spec env rc cfg tl s
    · rw [if_neg e1]
      exact pushBranchLoop_spec env rc cfg tl s

/-- push_main_and_branches either succeeds leaving the session
untouched, fails on the push of main (label "ERROR", scheduler
stopped), fails on a branch target (push-failed labels, scheduler
stopped), or propagates the listing exception with the session
untouched. -/
theorem push_main_and_branches_spec (env : GitOracle) (rc : RepoCfg) (cfg : Settings)
    (s : Session) :
    push_main_and_branches env rc cfg s = (.ok, s) ∨
    push_main_and_branches env rc cfg s =
      (.failed, { s with stateLabel := "ERROR", polling := false }) ∨
    (∃ target, push_main_and_branches env rc cfg s =
      (.failed, { s with stateLabel := "STOP — Push failed",
                         infoLabel := "Push to " ++ target ++ " failed",
                         polling := false })) ∨
    ∃ e, push_main_and_branches env rc cfg s = (.raised e, s) := by
  simp only [push_main_and_branches]
  by_cases e1 : env.pushMainRes.1 ≠ 0
  · rw [if_pos e1]
    exact Or.inr (Or.inl rfl)
  · rw [if_neg e1]
    cases e2 : get_tracked_branches env.trackedRes with
    | error e => exact Or.inr (Or.inr (Or.inr ⟨e, rfl⟩))
    | ok allB =>
      rcases pushBranchLoop_spec env rc cfg allB s with h | ⟨t, h⟩
      · exact Or.inl h
      · exact Or.inr (Or.inr (Or.inl ⟨t, h⟩))

/-- The behind-branch push loop either pushes everything (session
untouched) or stops at the first failure with label "ERROR" and the
scheduler stopped. -/
theorem pushBehindLoop_spec (env : GitOracle) (rc : RepoCfg) :
    ∀ (bs : List (String × Nat)) (s : Session),
      pushBehindLoop env rc s bs = (true, s) ∨
      pushBehindLoop env rc s bs =
        (false, { s with stateLabel := "ERROR", polling := false })
  | [], _ => Or.inl rfl
  | (name, k) :: tl, s => by
    simp only [pushBehindLoop]
    by_cases e1 : (env.pushRefspec (rc.mainB ++ ":" ++ name)).1 ≠ 0
    · rw [if_pos e1]
      exact Or.inr rfl
    · rw [if_neg e1]
      exact pushBehindLoop_spec env rc tl s

/-- The merge loop either merges everything (session untouched) or
stops at the first failing branch with the merge-failed labels and the
scheduler stopped. -/
theorem mergeLoop_spec (env : GitOracle) :
    ∀ (bs : List String) (s : Session),
      mergeLoop env s bs = (true, s) ∨
      ∃ branch, mergeLoop env s bs =
        (false, { s with stateLabel := "ERROR — Merge failed",
                         infoLabel := "Merge of " ++ branch ++ " failed",
                         polling := false })
  | [], _ => Or.inl rfl
  | hd :: tl, s => by
    simp only [mergeLoop]
    by_cases e1 : (env.mergeRes hd).1 ≠ 0
    · rw [if_pos e1]
      exact Or.inr ⟨hd, rfl⟩
    · rw [if_neg e1]
      exact mergeLoop_spec env tl s

/-- scanStart clears pending_branches. -/
theorem scanStart_pendingBranches (s : Session) : (scanStart s).pendingBranches = [] := rfl

/-- scanStart leaves last_commit_count unchanged. -/
theorem scanStart_lastCommitCount (s : Session) :
    (scanStart s).lastCommitCount = s.lastCommitCount := rfl

/-- scanStart sets the scanning label. -/
theorem scanStart_stateLabel (s : Session) : (scanStart s).stateLabel = "Sync…" := rfl

/-- scanStart leaves the polling flag unchanged. -/
theorem scanStart_polling (s : Session) : (scanStart s).polling = s.polling := rfl

/-- C3 counterexample: a failed manual merge leaves pendingBranches
populated while the session is in the merge-failed Error state — a
reachable state (one failed merge from the MergePossible state) in
which pendingBranches is non-empty although the state is neither
MergePossible nor HumanRequired. -/
theorem merge_failure_keeps_pending_with_error :
    (do_merge_impl envMergeFail rcStd cfgNone sessPendingX).2.pendingBranches = ["x"] ∧
    (do_merge_impl envMergeFail rcStd cfgNone sessPendingX).2.stateLabel = "ERROR — Merge failed" ∧
    ¬((do_merge_impl envMergeFail rcStd cfgNone sessPendingX).2.stateLabel = "STOP — Merge possible" ∨
      (do_merge_impl envMergeFail rcStd cfgNone sessPendingX).2.stateLabel = "STOP — Human action required") := by
  decide

/-- C3 (amended): every sync cycle exits (on every path, exceptional
ones included) with pendingBranches non-empty only in the
MergePossible or HumanRequired stop states; the manual merge clears
pendingBranches on success, but on a merge or push failure it keeps
them populated for retry while the state is the merge-failed Error,
Error, push-failed (or, when the branch listing raised, the transient
Merging) label, so the invariant as originally stated holds for sync
cycles but not for the failure paths of the manual merge. -/
theorem pending_branches_invariant_amended :
    (∀ (env : GitOracle) (rc : RepoCfg) (cfg : Settings) (s : Session),
      (do_sync env rc cfg s).sess.pendingBranches ≠ [] →
        (do_sync env rc cfg s).sess.stateLabel = "STOP — Merge possible" ∨
        (do_sync env rc cfg s).sess.stateLabel = "STOP — Human action required") ∧
    (∀ (env : GitOracle) (rc : RepoCfg) (cfg : Settings) (s : Session),
      (do_merge_impl env rc cfg s).2.pendingBranches ≠ [] →
        (do_merge_impl env rc cfg s).2.stateLabel = "ERROR — Merge failed" ∨
        (do_merge_impl env rc cfg s).2.stateLabel = "ERROR" ∨
        (do_merge_impl env rc cfg s).2.stateLabel = "STOP — Push failed" ∨
        (do_merge_impl env rc cfg s).2.stateLabel = "Merging…") := by
  constructor
  · intro env rc cfg s
    cases e1 : env.fetchRes.1 with
    | succ n => simp [do_sync, e1, scanStart]
    | zero =>
    simp only [do_sync, scanStart, e1, ne_eq, not_true_eq_false, not_false_eq_true, if_false,
      if_true, reduceIte]
    cases e2 : local_main_ahead env.localMainRes with
    | succ n =>
      simp only [e2, Nat.zero_lt_succ, if_true]
      rcases push_main_and_branches_spec env rc cfg
          ⟨"Sync…", s.infoLabel, [], s.lastCommitCount, s.polling, s.healthy, false, s.syncing⟩
        with h | h | ⟨t, h⟩ | ⟨e, h⟩ <;> simp [h]
    | zero =>
    simp only [e2, Nat.lt_irrefl, if_false, reduceIte]
    cases e4 : get_tracked_branches env.trackedRes with
    | error e => simp [e4]
    | ok allB =>
    simp only [e4]
    cases e5 : classify env rc.remote s.lastCommitCount (enabledBranches cfg rc.remote allB) with
    | raised m l => simp [e5]
    | done aheads divs nd l =>
    simp only [e5]
    by_cases e6 : aheads.length + divs.length = 0
    · rw [if_pos e6]
      cases e7 : collectBehind env rc.remote (enabledBranches cfg rc.remote allB) with
      | error m => simp [e7]
      | ok behinds =>
      simp only [e7]
      by_cases e8 : behinds.length ≠ 0
      · rw [if_pos e8]
        rcases pushBehindLoop_spec env rc behinds
            ⟨"Sync…", s.infoLabel, [], l, s.polling, s.healthy, false, s.syncing⟩ with h | h <;>
          rw [h] <;> simp
      · rw [if_neg e8]
        simp
    · rw [if_neg e6]
      by_cases e10 : 0 < divs.length ∨ 1 < aheads.length
      · rw [if_pos e10]
        cases e11 : are_files_disjoint env.diffFiles
            (divs.map (fun d => d.1) ++ aheads.map (fun a => a.1)) <;>
          simp [e11]
      · rw [if_neg e10]
        cases aheads with
        | nil => simp
        | cons hdp tlp =>
        cases hdp with
        | mk leader cnt =>
        cases e12 : (env.pullRes leader).1 with
        | succ n => simp [e12]
        | zero =>
        simp only [e12, ne_eq, not_true_eq_false, not_false_eq_true, if_false, reduceIte]
        rcases push_main_and_branches_spec env rc (pruneSettings cfg (allB.map (shortOf rc.remote)))
            ⟨"Sync…", s.infoLabel, [], l, s.polling, s.healthy, false, s.syncing⟩
          with h | h | ⟨t, h⟩ | ⟨e, h⟩ <;> rw [h] <;> simp [e4]
  · intro env rc cfg s
    cases hpend : s.pendingBranches with
    | nil => simp [do_merge_impl, hpend]
    | cons hd tl =>
      have hne : ¬(s.pendingBranches = []) := by
        rw [hpend]; exact List.cons_ne_nil hd tl
      simp only [do_merge_impl]
      rw [if_neg hne]
      rcases mergeLoop_spec env s.pendingBranches
          ⟨"Merging…", s.infoLabel, s.pendingBranches, s.lastCommitCount, s.polling, s.healthy,
            false, s.syncing⟩ with h | ⟨br, h⟩
      · simp only [h]
        rcases push_main_and_branches_spec env rc cfg
            ⟨"Merging…", s.infoLabel, s.pendingBranches, s.lastCommitCount, s.polling, s.healthy,
              false, s.syncing⟩ with hq | hq | ⟨t, hq⟩ | ⟨e, hq⟩ <;> simp [hq]
      · simp only [h]
        simp

/-- Witness for the amended C3 statement at the concrete failing
merge. -/
theorem pending_branches_invariant_amended_witness :
    (do_merge_impl envMergeFail rcStd cfgNone sessPendingX).2.stateLabel = "ERROR — Merge failed" ∨
    (do_merge_impl envMergeFail rcStd cfgNone sessPendingX).2.stateLabel = "ERROR" ∨
    (do_merge_impl envMergeFail rcStd cfgNone sessPendingX).2.stateLabel = "STOP — Push failed" ∨
    (do_merge_impl envMergeFail rcStd cfgNone sessPendingX).2.stateLabel = "Merging…" :=
  pending_branches_invariant_amended.2 envMergeFail rcStd cfgNone sessPendingX (by decide)

/-- C7 counterexample: a cycle that ends on the local-main-ahead push
path performs no pruning — the stale entry for a branch absent from
the remote branch list survives the cycle, although the cycle completed
normally (ending in Sync OK). -/
theorem prune_skipped_on_local_ahead_cycle :
    (do_sync envLocalAhead rcStd cfgStale sessIdle).exitS = ExitStatus.normal ∧
    (do_sync envLocalAhead rcStd cfgStale sessIdle).sess.stateLabel = "Sync OK" ∧
    get_tracked_branches envLocalAhead.trackedRes = Except.ok [] ∧
    (do_sync envLocalAhead rcStd cfgStale sessIdle).cfg.branchEnabled = [("gone", true)] :=
  ⟨by decide, by decide, rfl, by decide⟩

/-- pruneSettings keeps the default-enabled fallback. -/
theorem pruneSettings_defaultEnabled (cfg : Settings) (ex : List String) :
    (pruneSettings cfg ex).defaultEnabled = cfg.defaultEnabled := by
  unfold pruneSettings
  split <;> rfl

/-- pruneSettings keeps the repository-key flag. -/
theorem pruneSettings_repoInMap (cfg : Settings) (ex : List String) :
    (pruneSettings cfg ex).repoInMap = cfg.repoInMap := by
  unfold pruneSettings
  split <;> rfl

/-- C7 (amended): pruning happens on exactly the cycles that reach
branch enumeration (fetch succeeded, local main not ahead, listing
succeeded): there the resulting settings are the originals with every
entry whose name is absent from the listed short names removed, and an
entry survives exactly when its name is still listed, with its value
unchanged; every other cycle leaves the settings untouched, so this
pruning is the only configuration write a cycle performs, and neither
the default-enabled fallback nor the repository-key flag is ever
written. -/
theorem prune_on_enumeration_amended :
    (∀ (env : GitOracle) (rc : RepoCfg) (cfg : Settings) (s : Session) (allB : List String),
      env.fetchRes.1 = 0 → local_main_ahead env.localMainRes = 0 →
      get_tracked_branches env.trackedRes = Except.ok allB →
      (do_sync env rc cfg s).cfg = pruneSettings cfg (allB.map (shortOf rc.remote))) ∧
    (∀ (env : GitOracle) (rc : RepoCfg) (cfg : Settings) (s : Session),
      (do_sync env rc cfg s).cfg = cfg ∨
      ∃ ex, (do_sync env rc cfg s).cfg = pruneSettings cfg ex) ∧
    (∀ (cfg : Settings) (ex : List String) (k : String) (v : Bool), cfg.repoInMap = true →
      ((k, v) ∈ (pruneSettings cfg ex).branchEnabled ↔
        (k, v) ∈ cfg.branchEnabled ∧ ex.contains k = true)) ∧
    (∀ (env : GitOracle) (rc : RepoCfg) (cfg : Settings) (s : Session),
      (do_sync env rc cfg s).cfg.defaultEnabled = cfg.defaultEnabled ∧
      (do_sync env rc cfg s).cfg.repoInMap = cfg.repoInMap) := by
  have base : ∀ (env : GitOracle) (rc : RepoCfg) (cfg : Settings) (s : Session)
      (allB : List String),
      env.fetchRes.1 = 0 → local_main_ahead env.localMainRes = 0 →
      get_tracked_branches env.trackedRes = Except.ok allB →
      (do_sync env rc cfg s).cfg = pruneSettings cfg (allB.map (shortOf rc.remote)) := by
    intro env rc cfg s allB e1 e2 e4
    simp only [do_sync, scanStart, e1, e2, e4, ne_eq, not_true_eq_false, not_false_eq_true,
      if_false, if_true, reduceIte, Nat.lt_irrefl]
    repeat' split
    all_goals rfl
  have base2 : ∀ (env : GitOracle) (rc : RepoCfg) (cfg : Settings) (s : Session),
      (do_sync env rc cfg s).cfg = cfg ∨
      ∃ ex, (do_sync env rc cfg s).cfg = pruneSettings cfg ex := by
    intro env rc cfg s
    cases e1 : env.fetchRes.1 with
    | succ n => left; simp [do_sync, e1]
    | zero =>
      cases e2 : local_main_ahead env.localMainRes with
      | succ n =>
        left
        simp only [do_sync, scanStart, e1, e2, ne_eq, not_true_eq_false, not_false_eq_true,
          if_false, if_true, reduceIte, Nat.zero_lt_succ]
        repeat' split
        all_goals rfl
      | zero =>
        cases e4 : get_tracked_branches env.trackedRes with
        | error e => left; simp [do_sync, scanStart, e1, e2, e4]
        | ok allB => exact Or.inr ⟨allB.map (shortOf rc.remote), base env rc cfg s allB e1 e2 e4⟩
  refine ⟨base, base2, ?_, ?_⟩
  · intro cfg ex k v hmap
    simp [pruneSettings, hmap, List.mem_filter]
  · intro env rc cfg s
    rcases base2 env rc cfg s with h | ⟨ex, h⟩
    · rw [h]; exact ⟨rfl, rfl⟩
    · rw [h]; exact ⟨pruneSettings_defaultEnabled cfg ex, pruneSettings_repoInMap cfg ex⟩

/-- Witness for the amended C7 statement at a concrete enumeration
cycle: the stale entry is pruned there. -/
theorem prune_on_enumeration_amended_witness :
    (do_sync envQuiet rcStd cfgStale sessIdle).cfg =
      pruneSettings cfgStale (([] : List String).map (shortOf rcStd.remote)) :=
  prune_on_enumeration_amended.1 envQuiet rcStd cfgStale sessIdle [] rfl rfl rfl

/-- The push fan-out loop never consults the per-branch rev-list or
diff oracles. -/
theorem pushBranchLoop_classification_free (env : GitOracle) (rc : RepoCfg) (cfg : Settings)
    (ra rb df : String → GitRes) :
    ∀ (bs : List String) (s : Session),
      pushBranchLoop { env with revListAhead := ra, revListBehind := rb, diffFiles := df }
          rc cfg s bs =
        pushBranchLoop env rc cfg s bs
  | [], _ => rfl
  | hd :: tl, s => by
    simp only [pushBranchLoop]
    rw [pushBranchLoop_classification_free env rc cfg ra rb df tl s]

/-- push_main_and_branches never consults the per-branch rev-list or
diff oracles. -/
theorem push_main_and_branches_classification_free (env : GitOracle) (rc : RepoCfg)
    (cfg : Settings) (ra rb df : String → GitRes) (s : Session) :
    push_main_and_branches { env with revListAhead := ra, revListBehind := rb, diffFiles := df }
        rc cfg s =
      push_main_and_branches env rc cfg s := by
  simp only [push_main_and_branches, pushBranchLoop_classification_free]

/-- C5: when fetch succeeded and local main is ahead, the cycle is
exactly the push fan-out applied to the scanning state: on fan-out
success it ends in Sync OK reporting the pushed-commit count, on
fan-out failure the failure state stands, on a listing exception the
exception propagates — and in all cases it returns without consulting
the per-branch rev-list or diff oracles at all, so no branch
classification or comparison logic runs. -/
theorem local_main_ahead_priority (env : GitOracle) (rc : RepoCfg) (cfg : Settings) (s : Session)
    (hfetch : env.fetchRes.1 = 0) (hpos : 0 < local_main_ahead env.localMainRes) :
    (do_sync env rc cfg s =
      match push_main_and_branches env rc cfg (scanStart s) with
      | (.ok, s1) =>
        ⟨.normal,
          { s1 with stateLabel := "Sync OK",
                    infoLabel := "Pushed " ++ natToStr (local_main_ahead env.localMainRes) ++
                      " local commits" },
          cfg⟩
      | (.failed, s1) => ⟨.normal, s1, cfg⟩
      | (.raised m, s1) => ⟨.raised m, s1, cfg⟩) ∧
    (∀ ra rb df : String → GitRes,
      do_sync { env with revListAhead := ra, revListBehind := rb, diffFiles := df } rc cfg s =
        do_sync env rc cfg s) := by
  have heq : ∀ env0 : GitOracle, env0.fetchRes.1 = 0 → 0 < local_main_ahead env0.localMainRes →
      do_sync env0 rc cfg s =
        match push_main_and_branches env0 rc cfg (scanStart s) with
        | (.ok, s1) =>
          ⟨.normal,
            { s1 with stateLabel := "Sync OK",
                      infoLabel := "Pushed " ++ natToStr (local_main_ahead env0.localMainRes) ++
                        " local commits" },
            cfg⟩
        | (.failed, s1) => ⟨.normal, s1, cfg⟩
        | (.raised m, s1) => ⟨.raised m, s1, cfg⟩ := by
    intro env0 h0 h1
    simp only [do_sync]
    rw [if_neg (by simp [h0]), if_pos h1]
  refine ⟨heq env hfetch hpos, fun ra rb df => ?_⟩
  rw [heq { env with revListAhead := ra, revListBehind := rb, diffFiles := df } hfetch hpos,
    heq env hfetch hpos, push_main_and_branches_classification_free]

/-- Witness for C5 at a concrete cycle with local main 2 ahead:
scenario D of the spec. -/
theorem local_main_ahead_priority_witness :
    (do_sync envLocalAhead rcStd cfgNone sessIdle).sess.stateLabel = "Sync OK" ∧
    (do_sync envLocalAhead rcStd cfgNone sessIdle).sess.infoLabel = "Pushed 2 local commits" ∧
    (do_sync envLocalAhead rcStd cfgNone sessIdle).exitS = ExitStatus.normal := by
  have h := (local_main_ahead_priority envLocalAhead rcStd cfgNone sessIdle rfl (by decide)).1
  rw [h]
  exact ⟨by decide, by decide, by decide⟩

/-- When every per-branch count succeeds (ahead A b, behind B b), the
classification loop ends normally and collects exactly the ahead-only
refs and the diverged refs, in listing order, with their counts. -/
theorem classify_of_counts (env : GitOracle) (remote : String) (A B : String → Nat) :
    ∀ (bs : List String) (lcc : List (String × Nat)),
      (∀ b ∈ bs, commits_ahead (env.revListAhead b) = Except.ok (A b)) →
      (∀ b ∈ bs, commits_behind (env.revListBehind b) = Except.ok (B b)) →
      ∃ nd lcc', classify env remote lcc bs =
        ClassifyOut.done
          ((bs.filter (fun b => decide (0 < A b) && decide (B b = 0))).map
            (fun b => (shortOf remote b, A b)))
          ((bs.filter (fun b => decide (0 < A b) && decide (0 < B b))).map
            (fun b => (shortOf remote b, A b, B b)))
          nd lcc'
  | [], lcc, _, _ => ⟨false, lcc, rfl⟩
  | b :: tl, lcc, hA, hB => by
    have hAtl : ∀ x ∈ tl, commits_ahead (env.revListAhead x) = Except.ok (A x) :=
      fun x hx => hA x (List.mem_cons_of_mem b hx)
    have hBtl : ∀ x ∈ tl, commits_behind (env.revListBehind x) = Except.ok (B x) :=
      fun x hx => hB x (List.mem_cons_of_mem b hx)
    simp only [classify, hA b (List.mem_cons_self b tl), hB b (List.mem_cons_self b tl)]
    by_cases h1 : 0 < A b
    · rw [if_pos h1]
      obtain ⟨nd, lcc', ih⟩ :=
        classify_of_counts env remote A B tl (setKey lcc (shortOf remote b) (A b)) hAtl hBtl
      simp only [ih]
      by_cases h2 : 0 < B b
      · rw [if_pos h2]
        have hb0 : ¬(B b = 0) := Nat.pos_iff_ne_zero.mp h2
        refine ⟨decide (lookupD lcc (shortOf remote b) 0 < A b) || nd, lcc', ?_⟩
        simp [List.filter_cons, h1, h2, hb0]
      · rw [if_neg h2]
        have hb0 : B b = 0 := Nat.eq_zero_of_not_pos h2
        refine ⟨decide (lookupD lcc (shortOf remote b) 0 < A b) || nd, lcc', ?_⟩
        simp [List.filter_cons, h1, h2, hb0]
    · rw [if_neg h1]
      obtain ⟨nd, lcc', ih⟩ := classify_of_counts env remote A B tl lcc hAtl hBtl
      refine ⟨nd, lcc', ?_⟩
      rw [ih]
      simp [List.filter_cons, h1]

/-- C4: when the cycle reaches the decision table (fetch succeeded,
local main not ahead, listing succeeded, every per-branch count
succeeded) and at least one enabled branch is diverged, or at least two
enabled branches are ahead or diverged combined, the cycle ends
normally, records into pendingBranches exactly the short names of the
diverged branches followed by those of the ahead branches, stops the
scheduler, and sets the stop state by are_files_disjoint computed over
exactly those names: merge-possible when disjoint (with the merge
button shown), human-required otherwise. -/
theorem diverged_or_multiple_stop (env : GitOracle) (rc : RepoCfg) (cfg : Settings) (s : Session)
    (allB : List String) (A B : String → Nat)
    (hfetch : env.fetchRes.1 = 0)
    (hlocal : local_main_ahead env.localMainRes = 0)
    (htrack : get_tracked_branches env.trackedRes = Except.ok allB)
    (hA : ∀ b ∈ enabledBranches cfg rc.remote allB,
      commits_ahead (env.revListAhead b) = Except.ok (A b))
    (hB : ∀ b ∈ enabledBranches cfg rc.remote allB,
      commits_behind (env.revListBehind b) = Except.ok (B b))
    (hcond : 1 ≤ ((enabledBranches cfg rc.remote allB).filter
          (fun b => decide (0 < A b) && decide (0 < B b))).length ∨
        2 ≤ ((enabledBranches cfg rc.remote allB).filter
          (fun b => decide (0 < A b) && decide (0 < B b))).length +
          ((enabledBranches cfg rc.remote allB).filter
            (fun b => decide (0 < A b) && decide (B b = 0))).length) :
    (do_sync env rc cfg s).exitS = ExitStatus.normal ∧
    (do_sync env rc cfg s).sess.pendingBranches =
      ((enabledBranches cfg rc.remote allB).filter
        (fun b => decide (0 < A b) && decide (0 < B b))).map (shortOf rc.remote) ++
      ((enabledBranches cfg rc.remote allB).filter
        (fun b => decide (0 < A b) && decide (B b = 0))).map (shortOf rc.remote) ∧
    (do_sync env rc cfg s).sess.polling = false ∧
    (do_sync env rc cfg s).sess.stateLabel =
      (if are_files_disjoint env.diffFiles
          (((enabledBranches cfg rc.remote allB).filter
            (fun b => decide (0 < A b) && decide (0 < B b))).map (shortOf rc.remote) ++
          ((enabledBranches cfg rc.remote allB).filter
            (fun b => decide (0 < A b) && decide (B b = 0))).map (shortOf rc.remote))
        then "STOP — Merge possible" else "STOP — Human action required") ∧
    (do_sync env rc cfg s).sess.mergeButtonShown =
      are_files_disjoint env.diffFiles
        (((enabledBranches cfg rc.remote allB).filter
          (fun b => decide (0 < A b) && decide (0 < B b))).map (shortOf rc.remote) ++
        ((enabledBranches cfg rc.remote allB).filter
          (fun b => decide (0 < A b) && decide (B b = 0))).map (shortOf rc.remote)) := by
  obtain ⟨nd, lcc', hcls⟩ := classify_of_counts env rc.remote A B
    (enabledBranches cfg rc.remote allB) s.lastCommitCount hA hB
  simp only [do_sync, scanStart, hfetch, hlocal, htrack, hcls, ne_eq, not_true_eq_false,
    not_false_eq_true, if_false, if_true, reduceIte, Nat.lt_irrefl]
  have hne0 : ¬((((enabledBranches cfg rc.remote allB).filter
        (fun b => decide (0 < A b) && decide (B b = 0))).map
          (fun b => (shortOf rc.remote b, A b))).length +
      (((enabledBranches cfg rc.remote allB).filter
        (fun b => decide (0 < A b) && decide (0 < B b))).map
          (fun b => (shortOf rc.remote b, A b, B b))).length = 0) := by
    simp only [List.length_map]
    omega
  rw [if_neg hne0]
  have htrue : 0 < (((enabledBranches cfg rc.remote allB).filter
        (fun b => decide (0 < A b) && decide (0 < B b))).map
          (fun b => (shortOf rc.remote b, A b, B b))).length ∨
      1 < (((enabledBranches cfg rc.remote allB).filter
        (fun b => decide (0 < A b) && decide (B b = 0))).map
          (fun b => (shortOf rc.remote b, A b))).length := by
    simp only [List.length_map]
    omega
  rw [if_pos htrue]
  have hnames :
      (((enabledBranches cfg rc.remote allB).filter
        (fun b => decide (0 < A b) && decide (0 < B b))).map
          (fun b => (shortOf rc.remote b, A b, B b))).map (fun d => d.1) ++
      (((enabledBranches cfg rc.remote allB).filter
        (fun b => decide (0 < A b) && decide (B b = 0))).map
          (fun b => (shortOf rc.remote b, A b))).map (fun a => a.1) =
      ((enabledBranches cfg rc.remote allB).filter
        (fun b => decide (0 < A b) && decide (0 < B b))).map (shortOf rc.remote) ++
      ((enabledBranches cfg rc.remote allB).filter
        (fun b => decide (0 < A b) && decide (B b = 0))).map (shortOf rc.remote) := by
    simp only [List.map_map]
    rfl
  rw [hnames]
  cases e : are_files_disjoint env.diffFiles
      (((enabledBranches cfg rc.remote allB).filter
        (fun b => decide (0 < A b) && decide (0 < B b))).map (shortOf rc.remote) ++
      ((enabledBranches cfg rc.remote allB).filter
        (fun b => decide (0 < A b) && decide (B b = 0))).map (shortOf rc.remote)) <;>
    simp [e]

/-- Witness for C4 at scenario B: two branches ahead touching disjoint
files end in the merge-possible stop state with both names pending. -/
theorem diverged_or_multiple_stop_witness :
    (do_sync envTwoAhead rcStd cfgNone sessIdle).sess.pendingBranches =
      ["feature/a", "feature/b"] ∧
    (do_sync envTwoAhead rcStd cfgNone sessIdle).sess.stateLabel = "STOP — Merge possible" ∧
    (do_sync envTwoAhead rcStd cfgNone sessIdle).sess.polling = false := by
  have h := diverged_or_multiple_stop envTwoAhead rcStd cfgNone sessIdle
    ["origin/feature/a", "origin/feature/b"] (fun _ => 1) (fun _ => 0)
    rfl rfl rfl (fun b _ => rfl) (fun b _ => rfl) (by decide)
  refine ⟨?_, ?_, h.2.2.1⟩
  · rw [h.2.1]
    decide
  · rw [h.2.2.2.1]
    decide

/-- Looking up the key just set by setKey yields the new value
(whether the key was replaced in place or appended). -/
theorem lookupD_of_map_replace (k : String) (v : Nat) :
    ∀ l : List (String × Nat), l.any (fun p => p.1 == k) = true →
      lookupD (l.map (fun p => if p.1 == k then (k, v) else p)) k 0 = v
  | [], h => by simp at h
  | p :: l, h => by
    cases hp : (p.1 == k) with
    | true => simp [lookupD, hp]
    | false =>
      have h' : l.any (fun p => p.1 == k) = true := by
        simp only [List.any_cons, hp, Bool.false_or] at h
        exact h
      simp only [List.map_cons, lookupD, hp, Bool.false_eq_true, if_false]
      exact lookupD_of_map_replace k v l h'

/-- Appending a fresh key to a list without it makes lookup find it. -/
theorem lookupD_append_single (k : String) (v : Nat) :
    ∀ l : List (String × Nat), l.any (fun p => p.1 == k) = false →
      lookupD (l ++ [(k, v)]) k 0 = v
  | [], _ => by simp [lookupD]
  | p :: l, h => by
    have hp : (p.1 == k) = false := by
      simp only [List.any_cons, Bool.or_eq_false_iff] at h
      exact h.1
    have h' : l.any (fun p => p.1 == k) = false := by
      simp only [List.any_cons, Bool.or_eq_false_iff] at h
      exact h.2
    simp only [List.cons_append, lookupD, hp, Bool.false_eq_true, if_false]
    exact lookupD_append_single k v l h'

/-- dict assignment then lookup of the same key yields the assigned
value. -/
theorem lookupD_setKey (l : List (String × Nat)) (k : String) (v : Nat) :
    lookupD (setKey l k v) k 0 = v := by
  unfold setKey
  by_cases h : l.any (fun p => p.1 == k) = true
  · rw [if_pos h]
    exact lookupD_of_map_replace k v l h
  · rw [if_neg h]
    exact lookupD_append_single k v l (Bool.not_eq_true _ ▸ Bool.of_not_eq_true h)

/-- When every refspec push succeeds, the fan-out loop pushes (or
skips) every branch and leaves the session untouched. -/
theorem pushBranchLoop_all_ok (env : GitOracle) (rc : RepoCfg) (cfg : Settings)
    (hp : ∀ r, (env.pushRefspec r).1 = 0) :
    ∀ (bs : List String) (s : Session), pushBranchLoop env rc cfg s bs = (.ok, s)
  | [], _ => rfl
  | hd :: tl, s => by
    simp only [pushBranchLoop]
    by_cases e1 : lookupD (if cfg.repoInMap then cfg.branchEnabled else [])
        (shortOf rc.remote hd) cfg.defaultEnabled = true
    · rw [if_pos e1, if_neg (by simp [hp (rc.mainB ++ ":" ++ shortOf rc.remote hd)])]
      exact pushBranchLoop_all_ok env rc cfg hp tl s
    · rw [if_neg e1]
      exact pushBranchLoop_all_ok env rc cfg hp tl s

/-- When the push of main and every refspec push succeed and the
listing succeeds, push_main_and_branches succeeds and leaves the
session untouched. -/
theorem push_main_all_ok (env : GitOracle) (rc : RepoCfg) (cfg : Settings) (s : Session)
    (allB : List String) (hm : env.pushMainRes.1 = 0)
    (ht : get_tracked_branches env.trackedRes = Except.ok allB)
    (hp : ∀ r, (env.pushRefspec r).1 = 0) :
    push_main_and_branches env rc cfg s = (.ok, s) := by
  simp only [push_main_and_branches, ht]
  rw [if_neg (by simp [hm])]
  exact pushBranchLoop_all_ok env rc cfg hp allB s

/-- C6: when the cycle reaches the decision table with exactly one
enabled branch ahead (ahead > 0, behind = 0) and none diverged, the
cycle performs the fast-forward-only pull of that branch: on pull
failure it ends in Error (scheduler stopped, the truncated stderr in
the info text); when the pull and every push succeed it ends in
Sync OK with that branch's recorded commit count reset to 0. -/
theorem single_ahead_pull_push (env : GitOracle) (rc : RepoCfg) (cfg : Settings) (s : Session)
    (allB : List String) (A B : String → Nat) (bref : String)
    (hfetch : env.fetchRes.1 = 0)
    (hlocal : local_main_ahead env.localMainRes = 0)
    (htrack : get_tracked_branches env.trackedRes = Except.ok allB)
    (hA : ∀ b ∈ enabledBranches cfg rc.remote allB,
      commits_ahead (env.revListAhead b) = Except.ok (A b))
    (hB : ∀ b ∈ enabledBranches cfg rc.remote allB,
      commits_behind (env.revListBehind b) = Except.ok (B b))
    (hdiv : (enabledBranches cfg rc.remote allB).filter
      (fun b => decide (0 < A b) && decide (0 < B b)) = [])
    (hahead : (enabledBranches cfg rc.remote allB).filter
      (fun b => decide (0 < A b) && decide (B b = 0)) = [bref]) :
    ((env.pullRes (shortOf rc.remote bref)).1 ≠ 0 →
      (do_sync env rc cfg s).exitS = ExitStatus.normal ∧
      (do_sync env rc cfg s).sess.stateLabel = "ERROR" ∧
      (do_sync env rc cfg s).sess.polling = false ∧
      (do_sync env rc cfg s).sess.infoLabel =
        "Pull failed: " ++ strTake 100 (env.pullRes (shortOf rc.remote bref)).2.2) ∧
    ((env.pullRes (shortOf rc.remote bref)).1 = 0 → env.pushMainRes.1 = 0 →
      (∀ r, (env.pushRefspec r).1 = 0) →
      (do_sync env rc cfg s).exitS = ExitStatus.normal ∧
      (do_sync env rc cfg s).sess.stateLabel = "Sync OK" ∧
      lookupD (do_sync env rc cfg s).sess.lastCommitCount (shortOf rc.remote bref) 0 = 0) := by
  obtain ⟨nd, lcc', hcls⟩ := classify_of_counts env rc.remote A B
    (enabledBranches cfg rc.remote allB) s.lastCommitCount hA hB
  rw [hdiv, hahead] at hcls
  simp only [List.map_cons, List.map_nil] at hcls
  simp only [do_sync, scanStart, hfetch, hlocal, htrack, hcls, ne_eq, not_true_eq_false,
    not_false_eq_true, if_false, if_true, reduceIte, Nat.lt_irrefl, List.length_cons,
    List.length_nil, Nat.lt_irrefl, Nat.zero_add, Nat.add_zero, Nat.one_ne_zero,
    Nat.lt_one_iff]
  constructor
  · intro hpf
    obtain ⟨n, hn⟩ := Nat.exists_eq_succ_of_ne_zero hpf
    simp [hn]
  · intro hp0 hm hp
    rw [push_main_all_ok env rc (pruneSettings cfg (allB.map (shortOf rc.remote)))
      ⟨"Sync…", s.infoLabel, [], lcc', s.polling, s.healthy, false, s.syncing⟩
      allB hm htrack hp]
    simp [hp0, htrack, lookupD_setKey]

/-- Witness for C6 at scenario A: one branch three commits ahead, pull
and pushes succeeding, ends in Sync OK with the recorded count reset. -/
theorem single_ahead_pull_push_witness :
    (do_sync envOneAhead rcStd cfgNone sessIdle).exitS = ExitStatus.normal ∧
    (do_sync envOneAhead rcStd cfgNone sessIdle).sess.stateLabel = "Sync OK" ∧
    lookupD (do_sync envOneAhead rcStd cfgNone sessIdle).sess.lastCommitCount "feature/x" 0 = 0 := by
  have h := (single_ahead_pull_push envOneAhead rcStd cfgNone sessIdle
    ["origin/feature/x"] (fun _ => 3) (fun _ => 0) "origin/feature/x"
    rfl rfl rfl (fun b _ => rfl) (fun b _ => rfl) (by decide) (by decide)).2
    rfl rfl (fun r => rfl)
  refine ⟨h.1, h.2.1, ?_⟩
  have h3 := h.2.2
  simpa using h3

end GitHerd
